import Mathlib

/-!
Verification of the graceful_controller ROS local planner
(src/graceful_controller_ros/src/graceful_controller_ros.cpp).

The embedding is a shallow functional translation of the controller code.
Coordinates are elements of a linear ordered field; the transcendental
functions of the C++ source (cos, sin, sqrt, atan2, shortest angular
distance) are passed as explicit function parameters bundled in `Trig`,
so every definition stays executable and theorems can instantiate them
with the real functions where a concrete value matters.
-/

namespace GracefulController

variable {α : Type} [LinearOrderedField α]

/-- A planar pose: position (x, y) and heading theta.  Mirrors the
(position, yaw-extracted-from-quaternion) content of geometry_msgs poses. -/
structure Pose (α : Type) where
  x : α
  y : α
  theta : α
deriving DecidableEq

/-- A velocity command: cmd_vel.linear.x and cmd_vel.angular.z. -/
structure Cmd (α : Type) where
  linearX : α
  angularZ : α
deriving DecidableEq

/-- The transcendental functions the source calls, passed as parameters so
that the embedding is executable over any linear ordered field. -/
structure Trig (α : Type) where
  cos : α → α
  sin : α → α
  sqrt : α → α
  atan2 : α → α → α
  shortestAngularDistance : α → α → α

/-- std::hypot(x, y) as used by the source. -/
def hypot (T : Trig α) (x y : α) : α :=
  T.sqrt (x * x + y * y)

/-- The sign helper of the source (graceful_controller_ros.cpp lines 60-63):
x < 0 gives -1, otherwise +1 (zero is treated as positive). -/
def sign (x : α) : α :=
  if x < 0 then -1 else 1

/-- Modelled from the spec: clamp(v, lo, hi) in its standard reading, raise
to at least lo and then cap at hi. -/
def clampSpec (v lo hi : α) : α :=
  min (max v lo) hi

/-- Controller parameters cached by the ROS wrapper (members set in
reconfigureCallback).  Field order: minVelX, maxVelX, accLimX, maxVelTheta,
accLimTheta, minInPlaceVelTheta, xyGoalTolerance, yawGoalTolerance,
maxLookahead, resolution, accDt, initialRotateTolerance. -/
structure Params (α : Type) where
  minVelX : α
  maxVelX : α
  accLimX : α
  maxVelTheta : α
  accLimTheta : α
  minInPlaceVelTheta : α
  xyGoalTolerance : α
  yawGoalTolerance : α
  maxLookahead : α
  resolution : α
  accDt : α
  initialRotateTolerance : α

/-- The pair of rigid transforms looked up each cycle: odom (global) frame
to base frame and its inverse. -/
structure RigidTf (α : Type) where
  odomToBase : Pose α → Pose α
  baseToOdom : Pose α → Pose α

/-- External collaborators consumed by one control cycle.  Field order:
inited, robotPose, localPlan, tf, hasNewPath, odomVel (linear, angular),
approach (velocity limits, then error x, y, theta), worldToMap, getCost. -/
structure Collab (α : Type) where
  inited : Bool
  robotPose : Option (Pose α)
  localPlan : Option (List (Pose α))
  tf : Option (RigidTf α)
  hasNewPath : Bool
  odomVel : Option (α × α)
  approach : α × α × α → α → α → α → Option (Cmd α)
  worldToMap : α → α → Option (ℕ × ℕ)
  getCost : ℕ × ℕ → ℕ

/-- Orientation assignment of setPlan for one pose: keep the position of p
and point its heading at q (atan2 of the delta to the following point). -/
def orientOf (atan2f : α → α → α) (p q : Pose α) : Pose α :=
  ⟨p.x, p.y, atan2f (q.y - p.y) (q.x - p.x)⟩

/-- The orientation loop of setPlan (lines 422-438): every pose except the
last has its heading overwritten to point at the next pose; the last pose
is copied unchanged. -/
def orientPlan (atan2f : α → α → α) : List (Pose α) → List (Pose α)
  | [] => []
  | [p] => [p]
  | p :: q :: rest => orientOf atan2f p q :: orientPlan atan2f (q :: rest)

/-- Checked embedding of the setPlan body.  The C++ code first executes
oriented_plan.back() = plan.back(); on an empty vector back() is undefined
behavior (and the following loop bound size() - 1 underflows on the
unsigned size), so the empty plan is modelled as failure. -/
def setPlanChecked (atan2f : α → α → α) (plan : List (Pose α)) :
    Option (List (Pose α)) :=
  match plan with
  | [] => none
  | p :: rest => some (orientPlan atan2f (p :: rest))

/-- One forward-integration step of the rollout (lines 344-352): compute
dt = resolution / vel_x, advance the position by dt * vel_x along the
current heading, then update the yaw by dt * vel_th. -/
def generateNextPose (cosf sinf : α → α) (res vx vth : α) (p : Pose α) :
    Pose α :=
  let dt := res / vx
  let x := p.x + dt * vx * cosf p.theta
  let y := p.y + dt * vx * sinf p.theta
  let yaw := p.theta + dt * vth
  ⟨x, y, yaw⟩

/-- Modelled from the spec: the integration step as the spec words it,
first update the yaw by dt * vel_th, then advance the position by
dt * vel_x along the new (updated) heading. -/
def generateNextPoseSpecOrder (cosf sinf : α → α) (res vx vth : α)
    (p : Pose α) : Pose α :=
  let dt := res / vx
  let yaw := p.theta + dt * vth
  ⟨p.x + dt * vx * cosf yaw, p.y + dt * vx * sinf yaw, yaw⟩

/-- Checked variant of the integration step: the source divides by vel_x
with no guard, so the vel_x = 0 case (where the floating-point quotient is
an infinity and the step is meaningless) is marked as failure. -/
def generateNextPoseChecked (cosf sinf : α → α) (res vx vth : α)
    (p : Pose α) : Option (Pose α) :=
  if vx = 0 then none
  else some (generateNextPose cosf sinf res vx vth p)

/-- rotateTowards (lines 459-499): pick the target yaw (bearing when the
target is farther than 0.5, else the target heading), cap the angular
speed, and command sign(yaw) times the clamped sqrt profile with zero
linear speed.  Returns the command together with the raw yaw error.
odomW is the measured angular speed when an odometry topic is set. -/
def rotateTowards (T : Trig α) (P : Params α) (odomW : Option α)
    (pose : Pose α) : Cmd α × α :=
  let yaw := if hypot T pose.x pose.y > 1 / 2 then T.atan2 pose.y pose.x
             else pose.theta
  let maxVelTh :=
    match odomW with
    | none => P.maxVelTheta
    | some w =>
      max (min P.maxVelTheta (|w| + P.accLimTheta * P.accDt))
        P.minInPlaceVelTheta
  (⟨0, sign yaw *
      min maxVelTh
        (max P.minInPlaceVelTheta (T.sqrt (2 * P.accLimTheta * |yaw|)))⟩,
    yaw)

/-- The velocity limiter block (lines 271-281): with a measured forward
velocity v0, the effective maximum is v0 + acc_lim_x * acc_dt, capped by
the cached configured maximum and raised to at least min_vel_x; without
velocity feedback the configured maximum is left unmodified. -/
def effectiveMaxVelX (P : Params α) (measured : Option α) : α :=
  match measured with
  | none => P.maxVelX
  | some v0 => max (min (v0 + P.accLimX * P.accDt) P.maxVelX) P.minVelX

/-- isGoalReached (lines 379-407): requires an available robot pose and
goal; true when the planar distance to the goal is below the xy tolerance
and the magnitude of the shortest angular distance from the goal heading
to the robot heading is below the yaw tolerance. -/
def isGoalReached (T : Trig α) (P : Params α) (inited : Bool)
    (robotPose goalPose : Option (Pose α)) : Bool :=
  if inited = false then false
  else
    match robotPose, goalPose with
    | some robot, some g =>
      decide (hypot T (g.x - robot.x) (g.y - robot.y) < P.xyGoalTolerance)
        && decide (|T.shortestAngularDistance g.theta robot.theta|
            < P.yawGoalTolerance)
    | _, _ => false

/-- Result of one candidate rollout; every constructor carries the contents
of the cmd_vel output parameter at exit together with the simulated
trajectory built so far. -/
inductive SimResult (α : Type) : Type
  | success (cmd : Cmd α) (traj : List (Pose α))
  | rejected (cmd : Cmd α) (traj : List (Pose α))
  | fatal (cmd : Cmd α) (traj : List (Pose α))
  | out (cmd : Cmd α) (traj : List (Pose α))
deriving DecidableEq

/-- Outcome of one pass through the rollout loop body: exit the loop with a
result, or continue with updated cmd_vel and trajectory. -/
inductive StepOut (α : Type) : Type
  | exit (r : SimResult α)
  | next (cmd : Cmd α) (path : List (Pose α))
deriving DecidableEq

/-- Static data of one rollout: trig functions, the steering law call with
its limits already pushed, the base-to-odom transform, the costmap
interface and the grid resolution. -/
structure SimEnv (α : Type) where
  T : Trig α
  app : α → α → α → Option (Cmd α)
  baseToOdom : Pose α → Pose α
  worldToMap : α → α → Option (ℕ × ℕ)
  getCost : ℕ × ℕ → ℕ
  res : α

/-- One pass of the rollout loop body (lines 286-368): express the target
relative to the last simulated pose, call the steering law (failure is
fatal for the cycle), record the command on the first pass, exit with
success when the remaining error drops below the grid resolution,
otherwise integrate one step, append it to the trajectory, and reject the
candidate when the new pose leaves the grid or meets a cost at or above
the inscribed-obstacle threshold 253. -/
def simulateBody (E : SimEnv α) (target : Pose α) (cmd : Cmd α)
    (path : List (Pose α)) : StepOut α :=
  let err : Pose α :=
    match path.getLast? with
    | none => target
    | some last =>
      let x := target.x - last.x
      let y := target.y - last.y
      let th := -last.theta
      ⟨x * E.T.cos th - y * E.T.sin th, y * E.T.cos th + x * E.T.sin th,
        target.theta + th⟩
  match E.app err.x err.y err.theta with
  | none => StepOut.exit (SimResult.fatal cmd path)
  | some v =>
    let cmd2 := if path.isEmpty then v else cmd
    if path.isEmpty = false ∧ hypot E.T err.x err.y < E.res then
      StepOut.exit (SimResult.success cmd2 path)
    else
      let next := generateNextPose E.T.cos E.T.sin E.res v.linearX v.angularZ
        (path.getLast?.getD ⟨0, 0, 0⟩)
      let path2 := path ++ [next]
      let world := E.baseToOdom next
      match E.worldToMap world.x world.y with
      | none => StepOut.exit (SimResult.rejected cmd2 path2)
      | some cell =>
        if 253 ≤ E.getCost cell then StepOut.exit (SimResult.rejected cmd2 path2)
        else StepOut.next cmd2 path2

/-- The rollout loop.  The C++ loop is while(true); the fuel argument is a
model artifact bounding the number of iterations, and running out of fuel
is reported by the out constructor. -/
def simulate (E : SimEnv α) : ℕ → Pose α → Cmd α → List (Pose α) →
    SimResult α
  | 0, _, cmd, path => SimResult.out cmd path
  | n + 1, target, cmd, path =>
    match simulateBody E target cmd path with
    | StepOut.exit r => r
    | StepOut.next c p => simulate E n target c p

/-- The index sequence of the candidate scan (line 242): from
size - 1 down to 1, index 0 excluded. -/
def candidateIndices (n : ℕ) : List ℕ :=
  ((List.range (n - 1)).reverse).map (fun k => k + 1)

/-- The keep condition of the candidate scan: a candidate is passed on to
the simulator exactly when its planar distance from the robot does not
exceed max_lookahead (line 249 skips the strict-greater case). -/
def withinLookahead (T : Trig α) (P : Params α) (robot : Pose α)
    (plan : List (Pose α)) (i : ℕ) : Bool :=
  !(decide (hypot T ((plan.getD i ⟨0, 0, 0⟩).x - robot.x)
      ((plan.getD i ⟨0, 0, 0⟩).y - robot.y) > P.maxLookahead))

/-- Tag recorded per simulated candidate in the cycle trace. -/
inductive SimTag : Type
  | success
  | rejected
  | fatal
  | out
deriving DecidableEq

/-- Result of one call of computeVelocityCommands.  ret is the boolean
return value (none when a rollout ran out of model fuel), cmd the final
contents of the cmd_vel output parameter, flag the has_new_path state at
exit, and trace the list of candidate indices passed to the simulator in
order, each with the rollout outcome. -/
structure CycleResult (α : Type) where
  ret : Option Bool
  cmd : Cmd α
  flag : Bool
  trace : List (ℕ × SimTag)
deriving DecidableEq

/-- Processing of one candidate index of the scan (lines 244-368): skip it
when it lies beyond max_lookahead (Sum.inr with no trace entry and
unchanged state); when a new path is active and the heading error of the
rotation controller is still at or above the tolerance, return the
rotation command for the cycle; otherwise push the acceleration-capped
velocity limits into the steering law and roll the candidate out.  A
rollout success, steering failure or fuel exhaustion ends the cycle
(Sum.inl); a rejection yields Sum.inr with the candidate logged as
rejected, the possibly cleared new-path flag and the cmd_vel contents
written by the rollout. -/
def scanCandidate (T : Trig α) (P : Params α) (C : Collab α) (tf : RigidTf α)
    (fuel : ℕ) (robot : Pose α) (plan : List (Pose α)) (i : ℕ)
    (hasNew : Bool) (cmd : Cmd α) :
    CycleResult α ⊕ (List (ℕ × SimTag) × Bool × Cmd α) :=
  let pose := plan.getD i ⟨0, 0, 0⟩
  if hypot T (pose.x - robot.x) (pose.y - robot.y) > P.maxLookahead then
    Sum.inr ([], hasNew, cmd)
  else
    let poseB := tf.odomToBase pose
    let rt := rotateTowards T P (C.odomVel.map Prod.snd) poseB
    if hasNew = true ∧ 0 < P.initialRotateTolerance ∧
        ¬ |rt.2| < P.initialRotateTolerance then
      Sum.inl ⟨some true, rt.1, hasNew, []⟩
    else
      let hn := if hasNew = true ∧ 0 < P.initialRotateTolerance then false
                else hasNew
      let c0 := if hasNew = true ∧ 0 < P.initialRotateTolerance then rt.1
                else cmd
      let E : SimEnv α :=
        ⟨T, C.approach (P.minVelX,
            effectiveMaxVelX P (C.odomVel.map Prod.fst), P.maxVelTheta),
          tf.baseToOdom, C.worldToMap, C.getCost, P.resolution⟩
      match simulate E fuel poseB c0 [] with
      | SimResult.success c2 _ =>
        Sum.inl ⟨some true, c2, hn, [(i, SimTag.success)]⟩
      | SimResult.rejected c2 _ => Sum.inr ([(i, SimTag.rejected)], hn, c2)
      | SimResult.fatal c2 _ =>
        Sum.inl ⟨some false, c2, hn, [(i, SimTag.fatal)]⟩
      | SimResult.out c2 _ => Sum.inl ⟨none, c2, hn, [(i, SimTag.out)]⟩

/-- The candidate scan (lines 241-369): work back over the index list; a
candidate that ends the cycle determines the result, a skipped or
rejected candidate passes the (possibly updated) state on to the next
closer index; an exhausted list means no pose was reachable and the
cycle fails. -/
def scanLoop (T : Trig α) (P : Params α) (C : Collab α) (tf : RigidTf α)
    (fuel : ℕ) (robot : Pose α) (plan : List (Pose α)) :
    List ℕ → Bool → Cmd α → CycleResult α
  | [], hasNew, cmd => ⟨some false, cmd, hasNew, []⟩
  | i :: rest, hasNew, cmd =>
    match scanCandidate T P C tf fuel robot plan i hasNew cmd with
    | Sum.inl r => r
    | Sum.inr (entries, hn, c) =>
      let r := scanLoop T P C tf fuel robot plan rest hn c
      ⟨r.ret, r.cmd, r.flag, entries ++ r.trace⟩

/-- computeVelocityCommands (lines 179-373): guard on being ready, on the
robot pose, on the local plan and on the frame transforms; when the robot
is within the xy goal tolerance of the final pose, rotate towards the
goal; otherwise run the candidate scan from the end of the plan. -/
def computeVelocityCommands (T : Trig α) (P : Params α) (C : Collab α)
    (fuel : ℕ) (cmdIn : Cmd α) : CycleResult α :=
  if C.inited = false then ⟨some false, cmdIn, C.hasNewPath, []⟩
  else
    match C.robotPose with
    | none => ⟨some false, cmdIn, C.hasNewPath, []⟩
    | some robot =>
      match C.localPlan with
      | none => ⟨some false, cmdIn, C.hasNewPath, []⟩
      | some plan =>
        if plan.isEmpty then ⟨some false, cmdIn, C.hasNewPath, []⟩
        else
          match C.tf with
          | none => ⟨some false, cmdIn, C.hasNewPath, []⟩
          | some tf =>
            let goal := plan.getLast?.getD ⟨0, 0, 0⟩
            if hypot T (goal.x - robot.x) (goal.y - robot.y)
                < P.xyGoalTolerance then
              let rt := rotateTowards T P (C.odomVel.map Prod.snd)
                (tf.odomToBase goal)
              ⟨some true, rt.1, C.hasNewPath, []⟩
            else
              scanLoop T P C tf fuel robot plan
                (candidateIndices plan.length) C.hasNewPath cmdIn

/-- Concrete trig stub over the rationals used by concrete runs: cos is
constantly 1, sin constantly 0, sqrt the identity, atan2 and the angular
distance constantly 0.  The structural claims hold for every Trig
instance, so any executable stub serves for witnesses. -/
def trigStub : Trig ℚ :=
  ⟨fun _ => 1, fun _ => 0, id, fun _ _ => 0, fun _ _ => 0⟩

/-- Concrete parameter set for counterexamples and witnesses.  Field order:
minVelX 1/5, maxVelX 1, accLimX 2/5, maxVelTheta 1, accLimTheta 1,
minInPlaceVelTheta 1/10, xyGoalTolerance 1, yawGoalTolerance 1/4,
maxLookahead 10, resolution 1, accDt 1/4, initialRotateTolerance 0. -/
def paramsQ : Params ℚ :=
  ⟨1/5, 1, 2/5, 1, 1, 1/10, 1, 1/4, 10, 1, 1/4, 0⟩

/-- Two-pose plan used by the concrete runs: start at the origin, goal two
units ahead along x. -/
def planQ : List (Pose ℚ) := [⟨0, 0, 0⟩, ⟨2, 0, 0⟩]

/-- Collaborators for an all-rejected cycle: every grid cell carries the
obstacle cost 254, the steering law answers velocity (1, 0). -/
def collabReject : Collab ℚ :=
  ⟨true, some ⟨0, 0, 0⟩, some planQ, some ⟨id, id⟩, false, none,
    fun _ _ _ _ => some ⟨1, 0⟩, fun _ _ => some (0, 0), fun _ => 254⟩

/-- Collaborators for a steering-law failure cycle: approach always
fails, the grid is free. -/
def collabFatal : Collab ℚ :=
  ⟨true, some ⟨0, 0, 0⟩, some planQ, some ⟨id, id⟩, false, none,
    fun _ _ _ _ => none, fun _ _ => some (0, 0), fun _ => 0⟩

/-- Collaborators for the goal-reached branch: the robot already sits at
the goal position of a plan whose goal heading is 1. -/
def collabGoal : Collab ℚ :=
  ⟨true, some ⟨0, 0, 0⟩, some [⟨0, 0, 0⟩, ⟨0, 0, 1⟩], some ⟨id, id⟩, false,
    none, fun _ _ _ _ => some ⟨1, 0⟩, fun _ _ => some (0, 0), fun _ => 0⟩

/-- Rollout environment over a free unbounded grid whose steering law
answers the constant command (v, 0); the lookahead target will sit behind
the robot, so the rollout never converges and never gets rejected. -/
def envConst (v : ℚ) : SimEnv ℚ :=
  ⟨trigStub, fun _ _ _ => some ⟨v, 0⟩, id, fun _ _ => some (0, 0),
    fun _ => 0, 1⟩

/-! ### Helper lemmas -/

theorem min_max_comm_clamp (lo hi v : α) (h : lo ≤ hi) :
    min hi (max lo v) = max lo (min hi v) := by
  rcases le_total v lo with h1 | h1 <;> rcases le_total v hi with h2 | h2 <;>
    simp [min_def, max_def] <;> split_ifs <;> linarith

theorem sign_of_neg (y : α) (h : y < 0) : sign y = -1 := by
  simp [sign, h]

theorem sign_of_nonneg (y : α) (h : ¬ y < 0) : sign y = 1 := by
  simp [sign, h]

theorem sign_mul_pos_sign (y c : α) (hc : 0 < c) :
    sign (sign y * c) = sign y := by
  by_cases h : y < 0
  · rw [sign_of_neg y h]
    have hneg : (-1 : α) * c < 0 := by nlinarith
    rw [sign_of_neg _ hneg]
  · rw [sign_of_nonneg y h]
    have hpos : ¬ (1 : α) * c < 0 := by nlinarith
    rw [sign_of_nonneg _ hpos]

theorem orientPlan_length (f : α → α → α) :
    ∀ plan : List (Pose α), (orientPlan f plan).length = plan.length
  | [] => rfl
  | [_] => rfl
  | p :: q :: rest => by
    simp only [orientPlan, List.length_cons]
    exact congrArg Nat.succ (orientPlan_length f (q :: rest))

theorem orientPlan_getD (f : α → α → α) (d : Pose α) :
    ∀ (plan : List (Pose α)) (i : ℕ), i + 1 < plan.length →
      (orientPlan f plan).getD i d =
        orientOf f (plan.getD i d) (plan.getD (i + 1) d)
  | [], i, h => by simp at h
  | [_], i, h => by simp at h
  | p :: q :: rest, 0, _ => by simp [orientPlan]
  | p :: q :: rest, i + 1, h => by
    have hlt : i + 1 < (q :: rest).length := by
      simp only [List.length_cons] at h ⊢
      omega
    simpa [orientPlan] using orientPlan_getD f d (q :: rest) i hlt

theorem orientPlan_getLast (f : α → α → α) :
    ∀ plan : List (Pose α), (orientPlan f plan).getLast? = plan.getLast?
  | [] => rfl
  | [_] => rfl
  | p :: q :: rest => by
    have ih := orientPlan_getLast f (q :: rest)
    cases rest with
    | nil => simp [orientPlan]
    | cons r rs =>
      simp only [orientPlan, List.getLast?_cons_cons] at ih ⊢
      exact ih

theorem candidateIndices_mem (n : ℕ) (i : ℕ) :
    i ∈ candidateIndices n ↔ 1 ≤ i ∧ i < n := by
  simp only [candidateIndices, List.mem_map, List.mem_reverse,
    List.mem_range]
  constructor
  · rintro ⟨k, hk, rfl⟩
    omega
  · rintro ⟨h1, h2⟩
    exact ⟨i - 1, by omega, by omega⟩

theorem candidateIndices_pairwise (n : ℕ) :
    (candidateIndices n).Pairwise (· > ·) := by
  unfold candidateIndices
  refine List.pairwise_map.mpr ?_
  have h1 : ((List.range (n - 1)).reverse).Pairwise (· > ·) :=
    List.pairwise_reverse.mpr (List.pairwise_lt_range (n - 1))
  exact h1.imp (fun h => Nat.succ_lt_succ h)

theorem withinLookahead_eq_false (T : Trig α) (P : Params α) (robot : Pose α)
    (plan : List (Pose α)) (i : ℕ)
    (hskip : hypot T ((plan.getD i ⟨0, 0, 0⟩).x - robot.x)
      ((plan.getD i ⟨0, 0, 0⟩).y - robot.y) > P.maxLookahead) :
    withinLookahead T P robot plan i = false := by
  simp only [withinLookahead, Bool.not_eq_false', decide_eq_true_eq]
  exact hskip

theorem withinLookahead_eq_true (T : Trig α) (P : Params α) (robot : Pose α)
    (plan : List (Pose α)) (i : ℕ)
    (hskip : ¬ hypot T ((plan.getD i ⟨0, 0, 0⟩).x - robot.x)
      ((plan.getD i ⟨0, 0, 0⟩).y - robot.y) > P.maxLookahead) :
    withinLookahead T P robot plan i = true := by
  simp only [withinLookahead, Bool.not_eq_true', decide_eq_false_iff_not]
  exact hskip

theorem scanCandidate_cases (T : Trig α) (P : Params α) (C : Collab α)
    (tf : RigidTf α) (fuel : ℕ) (robot : Pose α) (plan : List (Pose α))
    (i : ℕ) (hasNew : Bool) (cmd : Cmd α) :
    (scanCandidate T P C tf fuel robot plan i hasNew cmd =
        Sum.inr ([], hasNew, cmd) ∧
      withinLookahead T P robot plan i = false) ∨
    (withinLookahead T P robot plan i = true ∧
      ((∃ rc, scanCandidate T P C tf fuel robot plan i hasNew cmd =
          Sum.inl ⟨some true, rc, hasNew, []⟩ ∧ hasNew = true ∧
          0 < P.initialRotateTolerance) ∨
       (∃ c2 hn, scanCandidate T P C tf fuel robot plan i hasNew cmd =
          Sum.inl ⟨some true, c2, hn, [(i, SimTag.success)]⟩) ∨
       (∃ c2 hn, scanCandidate T P C tf fuel robot plan i hasNew cmd =
          Sum.inl ⟨some false, c2, hn, [(i, SimTag.fatal)]⟩) ∨
       (∃ c2 hn, scanCandidate T P C tf fuel robot plan i hasNew cmd =
          Sum.inl ⟨none, c2, hn, [(i, SimTag.out)]⟩) ∨
       (∃ c2 hn, scanCandidate T P C tf fuel robot plan i hasNew cmd =
          Sum.inr ([(i, SimTag.rejected)], hn, c2) ∧
          (hn = false ∨ (hn = hasNew ∧
            ¬ (hasNew = true ∧ 0 < P.initialRotateTolerance)))))) := by
  simp only [scanCandidate]
  split
  · rename_i hskip
    exact Or.inl ⟨rfl, withinLookahead_eq_false T P robot plan i hskip⟩
  · rename_i hskip
    refine Or.inr ⟨withinLookahead_eq_true T P robot plan i hskip, ?_⟩
    split
    · rename_i hgate
      exact Or.inl ⟨_, rfl, hgate.1, hgate.2.1⟩
    · split
      · exact Or.inr (Or.inl ⟨_, _, rfl⟩)
      · refine Or.inr (Or.inr (Or.inr (Or.inr ⟨_, _, rfl, ?_⟩)))
        split
        · exact Or.inl rfl
        · rename_i hg
          exact Or.inr ⟨rfl, hg⟩
      · exact Or.inr (Or.inr (Or.inl ⟨_, _, rfl⟩))
      · exact Or.inr (Or.inr (Or.inr (Or.inl ⟨_, _, rfl⟩)))

theorem scanLoop_prefix (T : Trig α) (P : Params α) (C : Collab α)
    (tf : RigidTf α) (fuel : ℕ) (robot : Pose α) (plan : List (Pose α)) :
    ∀ (idxs : List ℕ) (hasNew : Bool) (cmd : Cmd α),
      ∃ t, (scanLoop T P C tf fuel robot plan idxs hasNew cmd).trace.map
          Prod.fst ++ t = idxs.filter (withinLookahead T P robot plan)
  | [], hasNew, cmd => ⟨[], by simp [scanLoop]⟩
  | i :: rest, hasNew, cmd => by
    simp only [scanLoop]
    rcases scanCandidate_cases T P C tf fuel robot plan i hasNew cmd with
      ⟨heq, hwl⟩ | ⟨hwl, hgate | hsucc | hfatal | hout | hrej⟩
    · rw [heq]
      obtain ⟨t, ht⟩ :=
        scanLoop_prefix T P C tf fuel robot plan rest hasNew cmd
      exact ⟨t, by simp [List.filter_cons, hwl, ht]⟩
    · obtain ⟨rc, heq, _⟩ := hgate
      rw [heq]
      exact ⟨i :: rest.filter (withinLookahead T P robot plan),
        by simp [List.filter_cons, hwl]⟩
    · obtain ⟨c2, hn, heq⟩ := hsucc
      rw [heq]
      exact ⟨rest.filter (withinLookahead T P robot plan),
        by simp [List.filter_cons, hwl]⟩
    · obtain ⟨c2, hn, heq⟩ := hfatal
      rw [heq]
      exact ⟨rest.filter (withinLookahead T P robot plan),
        by simp [List.filter_cons, hwl]⟩
    · obtain ⟨c2, hn, heq⟩ := hout
      rw [heq]
      exact ⟨rest.filter (withinLookahead T P robot plan),
        by simp [List.filter_cons, hwl]⟩
    · obtain ⟨c2, hn, heq, _⟩ := hrej
      rw [heq]
      obtain ⟨t, ht⟩ := scanLoop_prefix T P C tf fuel robot plan rest hn c2
      exact ⟨t, by simp [List.filter_cons, hwl, ht]⟩

theorem scanLoop_dropLast (T : Trig α) (P : Params α) (C : Collab α)
    (tf : RigidTf α) (fuel : ℕ) (robot : Pose α) (plan : List (Pose α)) :
    ∀ (idxs : List ℕ) (hasNew : Bool) (cmd : Cmd α),
      ∀ e ∈ (scanLoop T P C tf fuel robot plan idxs hasNew
          cmd).trace.dropLast, e.2 = SimTag.rejected
  | [], hasNew, cmd => by simp [scanLoop]
  | i :: rest, hasNew, cmd => by
    simp only [scanLoop]
    rcases scanCandidate_cases T P C tf fuel robot plan i hasNew cmd with
      ⟨heq, hwl⟩ | ⟨hwl, hgate | hsucc | hfatal | hout | hrej⟩
    · rw [heq]
      simpa using scanLoop_dropLast T P C tf fuel robot plan rest hasNew cmd
    · obtain ⟨rc, heq, _⟩ := hgate
      rw [heq]
      simp
    · obtain ⟨c2, hn, heq⟩ := hsucc
      rw [heq]
      simp
    · obtain ⟨c2, hn, heq⟩ := hfatal
      rw [heq]
      simp
    · obtain ⟨c2, hn, heq⟩ := hout
      rw [heq]
      simp
    · obtain ⟨c2, hn, heq, _⟩ := hrej
      rw [heq]
      have ih := scanLoop_dropLast T P C tf fuel robot plan rest hn c2
      cases htr : (scanLoop T P C tf fuel robot plan rest hn c2).trace with
      | nil => simp [htr]
      | cons x xs =>
        rw [htr] at ih
        intro e he
        simp only [htr, List.cons_append, List.nil_append,
          List.dropLast_cons₂] at he
        rcases List.mem_cons.mp he with h | h
        · rw [h]
        · exact ih e h

theorem scanLoop_exhaust (T : Trig α) (P : Params α) (C : Collab α)
    (tf : RigidTf α) (fuel : ℕ) (robot : Pose α) (plan : List (Pose α)) :
    ∀ (idxs : List ℕ) (hasNew : Bool) (cmd : Cmd α),
      SimTag.fatal ∉ (scanLoop T P C tf fuel robot plan idxs hasNew
          cmd).trace.map Prod.snd →
      (scanLoop T P C tf fuel robot plan idxs hasNew cmd).ret = some false →
      (scanLoop T P C tf fuel robot plan idxs hasNew cmd).trace.map
          Prod.fst = idxs.filter (withinLookahead T P robot plan)
  | [], hasNew, cmd => by simp [scanLoop]
  | i :: rest, hasNew, cmd => by
    intro hnf hret
    simp only [scanLoop] at hnf hret ⊢
    rcases scanCandidate_cases T P C tf fuel robot plan i hasNew cmd with
      ⟨heq, hwl⟩ | ⟨hwl, hgate | hsucc | hfatal | hout | hrej⟩
    · rw [heq] at hnf hret ⊢
      simp only [List.nil_append] at hnf hret ⊢
      rw [List.filter_cons]
      simp only [hwl, Bool.false_eq_true, if_false]
      exact scanLoop_exhaust T P C tf fuel robot plan rest hasNew cmd hnf hret
    · obtain ⟨rc, heq, _⟩ := hgate
      rw [heq] at hret
      simp at hret
    · obtain ⟨c2, hn, heq⟩ := hsucc
      rw [heq] at hret
      simp at hret
    · obtain ⟨c2, hn, heq⟩ := hfatal
      rw [heq] at hnf
      simp at hnf
    · obtain ⟨c2, hn, heq⟩ := hout
      rw [heq] at hret
      simp at hret
    · obtain ⟨c2, hn, heq, _⟩ := hrej
      rw [heq] at hnf hret ⊢
      simp only [List.cons_append, List.nil_append, List.map_cons,
        List.mem_cons] at hnf hret ⊢
      rw [List.filter_cons]
      simp only [hwl, if_true]
      have hnf2 : SimTag.fatal ∉ (scanLoop T P C tf fuel robot plan rest hn
          c2).trace.map Prod.snd := fun h => hnf (Or.inr h)
      rw [scanLoop_exhaust T P C tf fuel robot plan rest hn c2 hnf2 hret]

theorem scanLoop_fatal (T : Trig α) (P : Params α) (C : Collab α)
    (tf : RigidTf α) (fuel : ℕ) (robot : Pose α) (plan : List (Pose α)) :
    ∀ (idxs : List ℕ) (hasNew : Bool) (cmd : Cmd α) (j : ℕ),
      (j, SimTag.fatal) ∈ (scanLoop T P C tf fuel robot plan idxs hasNew
          cmd).trace →
      (scanLoop T P C tf fuel robot plan idxs hasNew cmd).ret = some false ∧
        ∃ pre, (scanLoop T P C tf fuel robot plan idxs hasNew cmd).trace =
          pre ++ [(j, SimTag.fatal)]
  | [], hasNew, cmd => by simp [scanLoop]
  | i :: rest, hasNew, cmd => by
    intro j hmem
    simp only [scanLoop] at hmem ⊢
    rcases scanCandidate_cases T P C tf fuel robot plan i hasNew cmd with
      ⟨heq, hwl⟩ | ⟨hwl, hgate | hsucc | hfatal | hout | hrej⟩
    · rw [heq] at hmem ⊢
      simp only [List.nil_append] at hmem ⊢
      exact scanLoop_fatal T P C tf fuel robot plan rest hasNew cmd j hmem
    · obtain ⟨rc, heq, _⟩ := hgate
      rw [heq] at hmem
      simp at hmem
    · obtain ⟨c2, hn, heq⟩ := hsucc
      rw [heq] at hmem
      simp at hmem
    · obtain ⟨c2, hn, heq⟩ := hfatal
      rw [heq] at hmem ⊢
      simp only [List.mem_singleton, Prod.mk.injEq] at hmem
      exact ⟨rfl, [], by simp [hmem.1]⟩
    · obtain ⟨c2, hn, heq⟩ := hout
      rw [heq] at hmem
      simp at hmem
    · obtain ⟨c2, hn, heq, _⟩ := hrej
      rw [heq] at hmem ⊢
      simp only [List.cons_append, List.nil_append, List.mem_cons] at hmem
      rcases hmem with h | h
      · exact absurd (congrArg Prod.snd h).symm (by simp)
      · obtain ⟨hret, pre, hpre⟩ :=
          scanLoop_fatal T P C tf fuel robot plan rest hn c2 j h
        exact ⟨hret, (i, SimTag.rejected) :: pre, by simp [hpre]⟩

theorem scanLoop_rejected_gate_off (T : Trig α) (P : Params α)
    (C : Collab α) (tf : RigidTf α) (fuel : ℕ) (robot : Pose α)
    (plan : List (Pose α)) :
    ∀ (idxs : List ℕ) (hasNew : Bool) (cmd : Cmd α),
      (hasNew = false ∨ ¬ 0 < P.initialRotateTolerance) →
      (∀ e ∈ (scanLoop T P C tf fuel robot plan idxs hasNew cmd).trace,
        e.2 = SimTag.rejected) →
      (scanLoop T P C tf fuel robot plan idxs hasNew cmd).ret = some false
  | [], hasNew, cmd => by simp [scanLoop]
  | i :: rest, hasNew, cmd => by
    intro hoff hall
    simp only [scanLoop] at hall ⊢
    rcases scanCandidate_cases T P C tf fuel robot plan i hasNew cmd with
      ⟨heq, hwl⟩ | ⟨hwl, hgate | hsucc | hfatal | hout | hrej⟩
    · rw [heq] at hall ⊢
      simp only [List.nil_append] at hall ⊢
      exact scanLoop_rejected_gate_off T P C tf fuel robot plan rest
        hasNew cmd hoff hall
    · obtain ⟨rc, _, hflag, hpos⟩ := hgate
      exfalso
      rcases hoff with h | h
      · rw [hflag] at h
        exact Bool.noConfusion h
      · exact h hpos
    · obtain ⟨c2, hn, heq⟩ := hsucc
      rw [heq] at hall
      have := hall (i, SimTag.success) (by simp)
      simp at this
    · obtain ⟨c2, hn, heq⟩ := hfatal
      rw [heq]
    · obtain ⟨c2, hn, heq⟩ := hout
      rw [heq] at hall
      have := hall (i, SimTag.out) (by simp)
      simp at this
    · obtain ⟨c2, hn, heq, hhn⟩ := hrej
      have hoff2 : hn = false ∨ ¬ 0 < P.initialRotateTolerance := by
        rcases hhn with h | ⟨h, _⟩
        · exact Or.inl h
        · rw [h]
          exact hoff
      rw [heq] at hall ⊢
      simp only [List.cons_append, List.nil_append] at hall ⊢
      have hall2 : ∀ e ∈ (scanLoop T P C tf fuel robot plan rest hn
          c2).trace, e.2 = SimTag.rejected :=
        fun e he => hall e (List.mem_cons_of_mem _ he)
      exact scanLoop_rejected_gate_off T P C tf fuel robot plan rest hn c2
        hoff2 hall2

theorem scanLoop_all_rejected (T : Trig α) (P : Params α) (C : Collab α)
    (tf : RigidTf α) (fuel : ℕ) (robot : Pose α) (plan : List (Pose α)) :
    ∀ (idxs : List ℕ) (hasNew : Bool) (cmd : Cmd α),
      (scanLoop T P C tf fuel robot plan idxs hasNew cmd).trace ≠ [] →
      (∀ e ∈ (scanLoop T P C tf fuel robot plan idxs hasNew cmd).trace,
        e.2 = SimTag.rejected) →
      (scanLoop T P C tf fuel robot plan idxs hasNew cmd).ret = some false
  | [], hasNew, cmd => by simp [scanLoop]
  | i :: rest, hasNew, cmd => by
    intro htr hall
    simp only [scanLoop] at htr hall ⊢
    rcases scanCandidate_cases T P C tf fuel robot plan i hasNew cmd with
      ⟨heq, hwl⟩ | ⟨hwl, hgate | hsucc | hfatal | hout | hrej⟩
    · rw [heq] at htr hall ⊢
      simp only [List.nil_append] at htr hall ⊢
      exact scanLoop_all_rejected T P C tf fuel robot plan rest hasNew cmd
        htr hall
    · obtain ⟨rc, heq, _⟩ := hgate
      rw [heq] at htr
      exact absurd rfl htr
    · obtain ⟨c2, hn, heq⟩ := hsucc
      rw [heq] at hall
      have := hall (i, SimTag.success) (by simp)
      simp at this
    · obtain ⟨c2, hn, heq⟩ := hfatal
      rw [heq]
    · obtain ⟨c2, hn, heq⟩ := hout
      rw [heq] at hall
      have := hall (i, SimTag.out) (by simp)
      simp at this
    · obtain ⟨c2, hn, heq, hhn⟩ := hrej
      have hoff : hn = false ∨ ¬ 0 < P.initialRotateTolerance := by
        rcases hhn with h | ⟨h, hg⟩
        · exact Or.inl h
        · cases hasNew with
          | false => exact Or.inl h
          | true =>
            right
            intro hpos
            exact hg ⟨rfl, hpos⟩
      rw [heq] at hall ⊢
      simp only [List.cons_append, List.nil_append] at hall ⊢
      have hall2 : ∀ e ∈ (scanLoop T P C tf fuel robot plan rest hn
          c2).trace, e.2 = SimTag.rejected :=
        fun e he => hall e (List.mem_cons_of_mem _ he)
      exact scanLoop_rejected_gate_off T P C tf fuel robot plan rest hn c2
        hoff hall2

theorem simulateBody_envConst (v : ℚ) (cmd : Cmd ℚ)
    (path : List (Pose ℚ))
    (hinv : path = [] ∨ ∃ k : ℚ, 0 ≤ k ∧ path.getLast? = some ⟨k, 0, 0⟩) :
    ∃ c2 k2, 0 ≤ k2 ∧
      simulateBody (envConst v) ⟨-2, 0, 0⟩ cmd path =
        StepOut.next c2 (path ++ [(⟨k2, 0, 0⟩ : Pose ℚ)]) := by
  have hvv : (0 : ℚ) ≤ 1 / v * v := by
    rcases eq_or_ne v 0 with h | h
    · simp [h]
    · rw [div_mul_cancel₀ _ h]
      norm_num
  rcases hinv with rfl | ⟨k, hk, hlast⟩
  · refine ⟨⟨v, 0⟩, 1 / v * v, hvv, ?_⟩
    simp [simulateBody, envConst, trigStub, hypot, generateNextPose]
  · rcases path with _ | ⟨a, as⟩
    · simp at hlast
    · refine ⟨cmd, k + 1 / v * v, by linarith, ?_⟩
      simp only [simulateBody, hlast, envConst, trigStub, hypot,
        generateNextPose, id, List.isEmpty_cons, Option.getD_some]
      norm_num
      intro hcond
      exfalso
      nlinarith

theorem simulate_envConst_out (v : ℚ) :
    ∀ (n : ℕ) (cmd : Cmd ℚ) (path : List (Pose ℚ)),
      (path = [] ∨ ∃ k : ℚ, 0 ≤ k ∧ path.getLast? = some ⟨k, 0, 0⟩) →
      ∃ c p, simulate (envConst v) n ⟨-2, 0, 0⟩ cmd path =
        SimResult.out c p := by
  intro n
  induction n with
  | zero => exact fun cmd path _ => ⟨cmd, path, rfl⟩
  | succ n ih =>
    intro cmd path hinv
    obtain ⟨c2, k2, hk2, hbody⟩ := simulateBody_envConst v cmd path hinv
    rw [simulate, hbody]
    exact ih c2 (path ++ [⟨k2, 0, 0⟩])
      (Or.inr ⟨k2, hk2, List.getLast?_concat _⟩)

/-! ### Claim theorems -/

/-- C1, counterexample: the claim (and spec) order the integration step as
a yaw update first and a position advance along the new heading second;
the code (lines 347-349) advances the position along the pre-update
heading and only then updates the yaw.  At yaw 0 with dt * vel_th = pi/2
the x advance differs: cos 0 = 1 for the code against cos (pi/2) = 0 for
the claimed order. -/
theorem C1_counterexample :
    generateNextPose Real.cos Real.sin 1 1 (Real.pi / 2) ⟨0, 0, 0⟩ ≠
      generateNextPoseSpecOrder Real.cos Real.sin 1 1 (Real.pi / 2)
        ⟨0, 0, 0⟩ := by
  intro h
  have hx := congrArg Pose.x h
  simp only [generateNextPose, generateNextPoseSpecOrder] at hx
  norm_num [Real.cos_pi_div_two] at hx

/-- C1, amended: each integration step computes dt = resolution / vel_x
and, for nonzero vel_x, advances the position by exactly resolution along
the current (pre-update) heading, and then updates the yaw by
dt * vel_th; the resulting pose is what gets appended to the simulated
trajectory. -/
theorem C1_step_order (cosf sinf : α → α) (res vx vth : α) (p : Pose α)
    (h : vx ≠ 0) :
    generateNextPose cosf sinf res vx vth p =
      ⟨p.x + res * cosf p.theta, p.y + res * sinf p.theta,
        p.theta + res / vx * vth⟩ := by
  simp only [generateNextPose, Pose.mk.injEq]
  simp [div_mul_cancel₀ _ h]

theorem C1_step_order_witness :
    generateNextPose (fun _ => (1 : ℚ)) (fun _ => (0 : ℚ)) 1 2 3 ⟨0, 0, 0⟩ =
      ⟨0 + 1 * 1, 0 + 1 * 0, 0 + 1 / 2 * 3⟩ :=
  C1_step_order (fun _ => (1 : ℚ)) (fun _ => (0 : ℚ)) 1 2 3 ⟨0, 0, 0⟩
    (by norm_num)

/-- C2: for every plan accepted by setPlan (equivalently every non-empty
plan), the oriented copy has the same length, every pose except the last
keeps its position and has its heading overwritten with atan2 of the
delta to the following pose, and the last pose is returned unchanged. -/
theorem C2_setPlan_orientations (f : α → α → α) (plan out : List (Pose α))
    (d : Pose α) (h : setPlanChecked f plan = some out) :
    out.length = plan.length ∧
    (∀ i : ℕ, i + 1 < plan.length →
      out.getD i d = orientOf f (plan.getD i d) (plan.getD (i + 1) d)) ∧
    out.getLast? = plan.getLast? := by
  have hout : out = orientPlan f plan := by
    cases plan with
    | nil => simp [setPlanChecked] at h
    | cons p rest =>
      simp only [setPlanChecked, Option.some.injEq] at h
      exact h.symm
  subst hout
  exact ⟨orientPlan_length f plan, orientPlan_getD f d plan,
    orientPlan_getLast f plan⟩

theorem C2_setPlan_orientations_witness :
    (orientPlan (fun a b => a - b) [(⟨0, 0, 5⟩ : Pose ℚ), ⟨1, 2, 7⟩]).getD 0
        ⟨0, 0, 0⟩ =
      orientOf (fun a b => a - b)
        ([(⟨0, 0, 5⟩ : Pose ℚ), ⟨1, 2, 7⟩].getD 0 ⟨0, 0, 0⟩)
        ([(⟨0, 0, 5⟩ : Pose ℚ), ⟨1, 2, 7⟩].getD 1 ⟨0, 0, 0⟩) :=
  (C2_setPlan_orientations (fun a b => a - b) [⟨0, 0, 5⟩, ⟨1, 2, 7⟩]
      (orientPlan (fun a b => a - b) [⟨0, 0, 5⟩, ⟨1, 2, 7⟩]) ⟨0, 0, 0⟩
      rfl).2.1 0 (by norm_num)

/-- C10: setPlan is total only on non-empty plans: on the empty plan the
C++ body reads the last element of an empty vector (undefined behavior,
the none result of the checked embedding, with the loop bound
size() - 1 underflowing right after); every non-empty plan is processed
to its oriented copy.  The public interface states no such
precondition. -/
theorem C10_setPlan_nonempty_precondition (f : α → α → α)
    (plan : List (Pose α)) :
    (setPlanChecked f plan = none ↔ plan = []) ∧
    (plan ≠ [] → setPlanChecked f plan = some (orientPlan f plan)) := by
  cases plan with
  | nil => simp [setPlanChecked]
  | cons p rest => simp [setPlanChecked]

theorem C10_setPlan_nonempty_precondition_witness :
    setPlanChecked (fun a b => a + b) [(⟨1, 2, 3⟩ : Pose ℚ)] =
      some (orientPlan (fun a b => a + b) [⟨1, 2, 3⟩]) :=
  (C10_setPlan_nonempty_precondition (fun a b => a + b) [⟨1, 2, 3⟩]).2
    (by simp)

/-- C5, counterexample: with measured velocity 0 the claimed bound
measured + acc_lim_x * acc_dt = 1/10 is exceeded: the code raises the
effective maximum to min_vel_x = 1/5. -/
theorem C5_counterexample :
    ¬ effectiveMaxVelX paramsQ (some 0) ≤
        0 + paramsQ.accLimX * paramsQ.accDt := by
  norm_num [effectiveMaxVelX, paramsQ]

/-- C5, amended: with velocity feedback the effective maximum equals
clamp(measured + acc_lim_x * acc_dt, min_vel_x, configured max) whenever
min_vel_x does not exceed the configured max; it never exceeds
max(measured + acc_lim_x * acc_dt, min_vel_x), and it respects the
claimed bound measured + acc_lim_x * acc_dt whenever min_vel_x does not
exceed that bound; without feedback the configured maximum is used
unmodified. -/
theorem C5_effective_max_vel (P : Params α) (v0 : α)
    (hlohi : P.minVelX ≤ P.maxVelX) :
    effectiveMaxVelX P none = P.maxVelX ∧
    effectiveMaxVelX P (some v0) =
      clampSpec (v0 + P.accLimX * P.accDt) P.minVelX P.maxVelX ∧
    effectiveMaxVelX P (some v0) ≤
      max (v0 + P.accLimX * P.accDt) P.minVelX ∧
    (P.minVelX ≤ v0 + P.accLimX * P.accDt →
      effectiveMaxVelX P (some v0) ≤ v0 + P.accLimX * P.accDt) := by
  refine ⟨rfl, ?_, ?_, ?_⟩
  · simp only [effectiveMaxVelX, clampSpec, min_def, max_def]
    split_ifs <;> linarith
  · exact max_le_max (min_le_left _ _) (le_refl _)
  · intro h
    exact max_le (min_le_left _ _) h

theorem C5_effective_max_vel_witness :
    paramsQ.minVelX ≤ paramsQ.maxVelX ∧
      effectiveMaxVelX paramsQ none = paramsQ.maxVelX :=
  ⟨by norm_num [paramsQ],
    (C5_effective_max_vel paramsQ 1 (by norm_num [paramsQ])).1⟩

/-- C8: rotateTowards returns zero linear velocity, the raw yaw error
(total, with no failure mode), and an angular velocity equal to the sign
of the yaw error times sqrt(2 acc_lim_theta |yaw error|) clamped to
[min_in_place_vel_theta, max_vel_th]; the yaw error is the bearing
atan2(y, x) when the target lies farther than 0.5 and the target heading
otherwise, and sign treats zero as positive. -/
theorem C8_rotateTowards (T : Trig α) (P : Params α) (odomW : Option α)
    (pose : Pose α) :
    (rotateTowards T P odomW pose).1.linearX = 0 ∧
    (rotateTowards T P odomW pose).2 =
      (if hypot T pose.x pose.y > 1 / 2 then T.atan2 pose.y pose.x
       else pose.theta) ∧
    (rotateTowards T P odomW pose).1.angularZ =
      sign (rotateTowards T P odomW pose).2 *
        clampSpec
          (T.sqrt (2 * P.accLimTheta * |(rotateTowards T P odomW pose).2|))
          P.minInPlaceVelTheta
          (match odomW with
           | none => P.maxVelTheta
           | some w =>
             max (min P.maxVelTheta (|w| + P.accLimTheta * P.accDt))
               P.minInPlaceVelTheta) ∧
    sign (0 : α) = 1 := by
  refine ⟨rfl, rfl, ?_, sign_of_nonneg 0 (lt_irrefl 0)⟩
  simp only [rotateTowards, clampSpec]
  congr 1
  rw [min_comm, max_comm]

/-- C9: the per-step time increment is resolution / vel_x with no guard on
vel_x, so the step is undefined for a zero forward velocity (the checked
step fails there for every input); and the rollout loop carries no step
cap: with a steering law that keeps answering a constant forward velocity
towards a target behind the robot, the loop exhausts any amount of fuel
without converging and without being rejected. -/
theorem C9_unguarded_division_unbounded_loop :
    (∀ (cosf sinf : ℚ → ℚ) (res vth : ℚ) (p : Pose ℚ),
        generateNextPoseChecked cosf sinf res 0 vth p = none) ∧
    (∀ (v : ℚ) (n : ℕ) (cmd : Cmd ℚ),
        ∃ c p, simulate (envConst v) n ⟨-2, 0, 0⟩ cmd [] =
          SimResult.out c p) := by
  constructor
  · intro cosf sinf res vth p
    simp [generateNextPoseChecked]
  · intro v n cmd
    exact simulate_envConst_out v n cmd [] (Or.inl rfl)

theorem rotateTowards_sign (T : Trig α) (P : Params α) (odomW : Option α)
    (pose : Pose α) (hip : 0 < P.minInPlaceVelTheta)
    (hcap : P.minInPlaceVelTheta ≤ P.maxVelTheta) :
    sign (rotateTowards T P odomW pose).1.angularZ =
      sign (rotateTowards T P odomW pose).2 := by
  simp only [rotateTowards]
  apply sign_mul_pos_sign
  apply lt_min
  · cases odomW with
    | none => exact lt_of_lt_of_le hip hcap
    | some w => exact lt_of_lt_of_le hip (le_max_right _ _)
  · exact lt_of_lt_of_le hip (le_max_left _ _)

theorem computeVelocityCommands_cases (T : Trig α) (P : Params α)
    (C : Collab α) (fuel : ℕ) (cmdIn : Cmd α) :
    (computeVelocityCommands T P C fuel cmdIn).trace = [] ∨
    ∃ robot plan tf, C.robotPose = some robot ∧ C.localPlan = some plan ∧
      C.tf = some tf ∧
      computeVelocityCommands T P C fuel cmdIn =
        scanLoop T P C tf fuel robot plan (candidateIndices plan.length)
          C.hasNewPath cmdIn := by
  rw [computeVelocityCommands]
  split
  · exact Or.inl rfl
  · split
    · exact Or.inl rfl
    · rename_i robot hrp
      split
      · exact Or.inl rfl
      · rename_i plan hlp
        split
        · exact Or.inl rfl
        · split
          · exact Or.inl rfl
          · rename_i tf htf
            dsimp only
            split
            · exact Or.inl rfl
            · exact Or.inr ⟨robot, plan, tf, hrp, hlp, htf, rfl⟩

/-- C3: within xy_goal_tolerance of the final pose the cycle succeeds with
the rotation command: zero linear velocity and an angular velocity whose
sign equals the sign of the remaining yaw error; and isGoalReached is
true exactly when the planar distance to the goal is below
xy_goal_tolerance and the absolute yaw error is below
yaw_goal_tolerance. -/
theorem C3_goal_tolerance_behavior (T : Trig α) (P : Params α) (C : Collab α)
    (fuel : ℕ) (cmdIn : Cmd α) (robot : Pose α) (plan : List (Pose α))
    (tf : RigidTf α) (r g : Pose α)
    (hInit : C.inited = true) (hPose : C.robotPose = some robot)
    (hPlan : C.localPlan = some plan) (hTf : C.tf = some tf)
    (hne : plan ≠ [])
    (hdist : hypot T ((plan.getLast?.getD ⟨0, 0, 0⟩).x - robot.x)
      ((plan.getLast?.getD ⟨0, 0, 0⟩).y - robot.y) < P.xyGoalTolerance)
    (hip : 0 < P.minInPlaceVelTheta)
    (hcap : P.minInPlaceVelTheta ≤ P.maxVelTheta) :
    ((computeVelocityCommands T P C fuel cmdIn).ret = some true ∧
     (computeVelocityCommands T P C fuel cmdIn).cmd.linearX = 0 ∧
     sign (computeVelocityCommands T P C fuel cmdIn).cmd.angularZ =
       sign (rotateTowards T P (C.odomVel.map Prod.snd)
         (tf.odomToBase (plan.getLast?.getD ⟨0, 0, 0⟩))).2) ∧
    (isGoalReached T P true (some r) (some g) = true ↔
      hypot T (g.x - r.x) (g.y - r.y) < P.xyGoalTolerance ∧
      |T.shortestAngularDistance g.theta r.theta| < P.yawGoalTolerance) := by
  have hempty : plan.isEmpty = false := by
    cases plan with
    | nil => exact absurd rfl hne
    | cons a as => rfl
  have hred : computeVelocityCommands T P C fuel cmdIn =
      ⟨some true, (rotateTowards T P (C.odomVel.map Prod.snd)
        (tf.odomToBase (plan.getLast?.getD ⟨0, 0, 0⟩))).1,
        C.hasNewPath, []⟩ := by
    simp only [computeVelocityCommands, hInit, hPose, hPlan, hTf, hempty,
      Bool.true_eq_false, Bool.false_eq_true, if_false]
    rw [if_pos hdist]
  constructor
  · rw [hred]
    exact ⟨rfl, rfl, rotateTowards_sign T P (C.odomVel.map Prod.snd)
      (tf.odomToBase (plan.getLast?.getD ⟨0, 0, 0⟩)) hip hcap⟩
  · simp [isGoalReached]

theorem C3_goal_tolerance_behavior_witness :
    (computeVelocityCommands trigStub paramsQ collabGoal 1 ⟨0, 0⟩).ret =
      some true ∧
    (computeVelocityCommands trigStub paramsQ collabGoal 1
      ⟨0, 0⟩).cmd.linearX = 0 :=
  ⟨(C3_goal_tolerance_behavior trigStub paramsQ collabGoal 1 ⟨0, 0⟩
      ⟨0, 0, 0⟩ [⟨0, 0, 0⟩, ⟨0, 0, 1⟩] ⟨id, id⟩ ⟨0, 0, 0⟩ ⟨0, 0, 0⟩
      rfl rfl rfl rfl (by simp)
      (by norm_num [hypot, trigStub, paramsQ])
      (by norm_num [paramsQ]) (by norm_num [paramsQ])).1.1,
   (C3_goal_tolerance_behavior trigStub paramsQ collabGoal 1 ⟨0, 0⟩
      ⟨0, 0, 0⟩ [⟨0, 0, 0⟩, ⟨0, 0, 1⟩] ⟨id, id⟩ ⟨0, 0, 0⟩ ⟨0, 0, 0⟩
      rfl rfl rfl rfl (by simp)
      (by norm_num [hypot, trigStub, paramsQ])
      (by norm_num [paramsQ]) (by norm_num [paramsQ])).1.2.1⟩

/-- C4: the candidate scan of a cycle only ever passes to the simulator
path indices between 1 and size - 1 whose planar distance from the robot
is within max_lookahead; the attempted indices form a prefix of the
within-lookahead candidates in strictly decreasing index order (farthest
along the path first), every attempt except the last was rejected, and a
cycle that returns failure without a steering-law failure attempted the
within-lookahead candidates exhaustively. -/
theorem C4_candidate_scan (T : Trig α) (P : Params α) (C : Collab α)
    (fuel : ℕ) (cmdIn : Cmd α) (robot : Pose α) (plan : List (Pose α))
    (tf : RigidTf α)
    (hInit : C.inited = true) (hPose : C.robotPose = some robot)
    (hPlan : C.localPlan = some plan) (hTf : C.tf = some tf) :
    (∃ t, (computeVelocityCommands T P C fuel cmdIn).trace.map Prod.fst
        ++ t =
      (candidateIndices plan.length).filter
        (withinLookahead T P robot plan)) ∧
    ((computeVelocityCommands T P C fuel cmdIn).trace.map
      Prod.fst).Pairwise (· > ·) ∧
    (∀ e ∈ (computeVelocityCommands T P C fuel cmdIn).trace,
      (1 ≤ e.1 ∧ e.1 < plan.length) ∧
        withinLookahead T P robot plan e.1 = true) ∧
    (∀ e ∈ (computeVelocityCommands T P C fuel cmdIn).trace.dropLast,
      e.2 = SimTag.rejected) ∧
    (SimTag.fatal ∉ (computeVelocityCommands T P C fuel cmdIn).trace.map
        Prod.snd →
      (computeVelocityCommands T P C fuel cmdIn).ret = some false →
      (computeVelocityCommands T P C fuel cmdIn).trace.map Prod.fst =
        (candidateIndices plan.length).filter
          (withinLookahead T P robot plan)) := by
  cases plan with
  | nil =>
    have hred : computeVelocityCommands T P C fuel cmdIn =
        ⟨some false, cmdIn, C.hasNewPath, []⟩ := by
      rw [computeVelocityCommands, hInit, hPose, hPlan]
      simp
    rw [hred]
    refine ⟨⟨[], by simp [candidateIndices]⟩, by simp, by simp, by simp,
      by simp [candidateIndices]⟩
  | cons p0 rest =>
    have hempty : (p0 :: rest).isEmpty = false := rfl
    by_cases hgoal : hypot T
        (((p0 :: rest).getLast?.getD ⟨0, 0, 0⟩).x - robot.x)
        (((p0 :: rest).getLast?.getD ⟨0, 0, 0⟩).y - robot.y) <
        P.xyGoalTolerance
    · have hred : computeVelocityCommands T P C fuel cmdIn =
          ⟨some true, (rotateTowards T P (C.odomVel.map Prod.snd)
            (tf.odomToBase ((p0 :: rest).getLast?.getD ⟨0, 0, 0⟩))).1,
            C.hasNewPath, []⟩ := by
        simp only [computeVelocityCommands, hInit, hPose, hPlan, hTf, hempty,
          Bool.true_eq_false, Bool.false_eq_true, if_false]
        rw [if_pos hgoal]
      rw [hred]
      refine ⟨⟨(candidateIndices (p0 :: rest).length).filter
        (withinLookahead T P robot (p0 :: rest)), by simp⟩,
        by simp, by simp, by simp, ?_⟩
      intro _ hret
      simp at hret
    · have hred : computeVelocityCommands T P C fuel cmdIn =
          scanLoop T P C tf fuel robot (p0 :: rest)
            (candidateIndices (p0 :: rest).length) C.hasNewPath cmdIn := by
        simp only [computeVelocityCommands, hInit, hPose, hPlan, hTf, hempty,
          Bool.true_eq_false, Bool.false_eq_true, if_false]
        rw [if_neg hgoal]
      rw [hred]
      obtain ⟨t, ht⟩ := scanLoop_prefix T P C tf fuel robot (p0 :: rest)
        (candidateIndices (p0 :: rest).length) C.hasNewPath cmdIn
      have hsub : List.Sublist
          ((scanLoop T P C tf fuel robot (p0 :: rest)
            (candidateIndices (p0 :: rest).length) C.hasNewPath
            cmdIn).trace.map Prod.fst)
          ((candidateIndices (p0 :: rest).length).filter
            (withinLookahead T P robot (p0 :: rest))) := by
        rw [← ht]
        exact List.sublist_append_left _ t
      have hpw : ((candidateIndices (p0 :: rest).length).filter
          (withinLookahead T P robot (p0 :: rest))).Pairwise (· > ·) :=
        (candidateIndices_pairwise (p0 :: rest).length).filter _
      refine ⟨⟨t, ht⟩, List.Pairwise.sublist hsub hpw, ?_,
        scanLoop_dropLast T P C tf fuel robot (p0 :: rest) _ _ _,
        scanLoop_exhaust T P C tf fuel robot (p0 :: rest) _ _ _⟩
      intro e he
      have hmem : e.1 ∈ (candidateIndices (p0 :: rest).length).filter
          (withinLookahead T P robot (p0 :: rest)) :=
        List.Sublist.mem (List.mem_map_of_mem Prod.fst he) hsub
      rw [List.mem_filter] at hmem
      have hb := (candidateIndices_mem (p0 :: rest).length e.1).mp hmem.1
      exact ⟨hb, hmem.2⟩

theorem C4_candidate_scan_witness :
    ((computeVelocityCommands trigStub paramsQ collabReject 2
      ⟨0, 0⟩).trace.map Prod.fst).Pairwise (· > ·) :=
  (C4_candidate_scan trigStub paramsQ collabReject 2 ⟨0, 0⟩ ⟨0, 0, 0⟩ planQ
    ⟨id, id⟩ rfl rfl rfl rfl).2.1

/-- C6, counterexample: in the concrete all-obstacle cycle every candidate
is rejected and the cycle returns failure, yet the cmd_vel output
parameter has been overwritten with the first simulated command (1, 0) of
the rejected candidate, so the claim that no command is set by a failing
cycle is false. -/
theorem C6_counterexample :
    (computeVelocityCommands trigStub paramsQ collabReject 2 ⟨0, 0⟩).ret =
      some false ∧
    (computeVelocityCommands trigStub paramsQ collabReject 2 ⟨0, 0⟩).cmd ≠
      (⟨0, 0⟩ : Cmd ℚ) := by
  have hrun : computeVelocityCommands trigStub paramsQ collabReject 2
      ⟨0, 0⟩ =
      ⟨some false, ⟨1, 0⟩, false, [(1, SimTag.rejected)]⟩ := by
    norm_num [computeVelocityCommands, collabReject, paramsQ, trigStub,
      planQ, hypot, candidateIndices, scanLoop, scanCandidate, simulate,
      simulateBody, generateNextPose, effectiveMaxVelX, rotateTowards,
      sign, List.range_succ]
  rw [hrun]
  refine ⟨rfl, ?_⟩
  intro h
  have := congrArg Cmd.linearX h
  norm_num at this

/-- C6, amended: any cycle that attempted at least one candidate and saw
every attempted candidate rejected returns failure (false); the failure
is signalled through the boolean return value alone, and the cmd_vel
output parameter may nevertheless have been written by the first
simulated iteration of a rejected candidate. -/
theorem C6_all_rejected_returns_false (T : Trig α) (P : Params α)
    (C : Collab α) (fuel : ℕ) (cmdIn : Cmd α)
    (htr : (computeVelocityCommands T P C fuel cmdIn).trace ≠ [])
    (hall : ∀ e ∈ (computeVelocityCommands T P C fuel cmdIn).trace,
      e.2 = SimTag.rejected) :
    (computeVelocityCommands T P C fuel cmdIn).ret = some false := by
  rcases computeVelocityCommands_cases T P C fuel cmdIn with h |
    ⟨robot, plan, tf, _, _, _, heq⟩
  · exact absurd h htr
  · rw [heq] at htr hall ⊢
    exact scanLoop_all_rejected T P C tf fuel robot plan
      (candidateIndices plan.length) C.hasNewPath cmdIn htr hall

theorem C6_all_rejected_returns_false_witness :
    (computeVelocityCommands trigStub paramsQ collabReject 2 ⟨0, 0⟩).ret =
      some false :=
  C6_all_rejected_returns_false trigStub paramsQ collabReject 2 ⟨0, 0⟩
    (by norm_num [computeVelocityCommands, collabReject, paramsQ, trigStub,
      planQ, hypot, candidateIndices, scanLoop, scanCandidate, simulate,
      simulateBody, generateNextPose, effectiveMaxVelX, rotateTowards,
      sign, List.range_succ])
    (by norm_num [computeVelocityCommands, collabReject, paramsQ, trigStub,
      planQ, hypot, candidateIndices, scanLoop, scanCandidate, simulate,
      simulateBody, generateNextPose, effectiveMaxVelX, rotateTowards,
      sign, List.range_succ])

/-- C7: a steering-law failure during any candidate rollout aborts the
whole cycle: the cycle returns failure and the fatal candidate is the
last entry of the attempt trace, so no closer candidate is tried in that
cycle. -/
theorem C7_steering_failure_aborts (T : Trig α) (P : Params α)
    (C : Collab α) (fuel : ℕ) (cmdIn : Cmd α) (j : ℕ)
    (hmem : (j, SimTag.fatal) ∈
      (computeVelocityCommands T P C fuel cmdIn).trace) :
    (computeVelocityCommands T P C fuel cmdIn).ret = some false ∧
      ∃ pre, (computeVelocityCommands T P C fuel cmdIn).trace =
        pre ++ [(j, SimTag.fatal)] := by
  rcases computeVelocityCommands_cases T P C fuel cmdIn with h |
    ⟨robot, plan, tf, _, _, _, heq⟩
  · rw [h] at hmem
    simp at hmem
  · rw [heq] at hmem ⊢
    exact scanLoop_fatal T P C tf fuel robot plan
      (candidateIndices plan.length) C.hasNewPath cmdIn j hmem

theorem C7_steering_failure_aborts_witness :
    (computeVelocityCommands trigStub paramsQ collabFatal 2 ⟨0, 0⟩).ret =
      some false ∧
    ∃ pre, (computeVelocityCommands trigStub paramsQ collabFatal 2
      ⟨0, 0⟩).trace = pre ++ [(1, SimTag.fatal)] :=
  C7_steering_failure_aborts trigStub paramsQ collabFatal 2 ⟨0, 0⟩ 1
    (by norm_num [computeVelocityCommands, collabFatal, paramsQ, trigStub,
      planQ, hypot, candidateIndices, scanLoop, scanCandidate, simulate,
      simulateBody, generateNextPose, effectiveMaxVelX, rotateTowards,
      sign, List.range_succ])

end GracefulController
